import Mathlib

/-!
Verification of the immich-optimizer upload pipeline.

This file shallowly embeds the parts of the Go sources that the verified
properties talk about:

* `src/helpers.go` — extension normalization (`normalizeExtension`,
  `shouldProcessExtension`, `trimSuffixCaseInsensitive`);
* `src/tasks.go` — the task pipeline (`TaskProcessor.Process`,
  `TaskProcessor.run`, `TaskProcessor.processResults`,
  `TaskProcessor.executeCommand`);
* `src/jobs.go` — the HTTP ingestion path (`newJob`), the asynchronous
  delivery goroutine, and the wait endpoint (`continueJob`);
* `src/watcher.go` and `src/watcher_upload.go` — the filesystem ingestion
  path (`FileWatcher.processFile`, the two variants of
  `FileWatcher.uploadToImmich`).

Go strings are modelled as lists of rune code points (`GoStr := List Nat`);
`strings.ToLower` / `strings.ToUpper` are modelled on the ASCII letter
range, which is the range the repository's extension configuration uses.
External command execution is modelled by an oracle (`ExecEnv`) giving, for
each rendered command, its exit status and the files it leaves in the
destination workspace; everything else is translated directly from the
source.
-/

namespace ImmichOptimizer

/-- A Go string, as the list of its rune (Unicode code point) values. -/
abbrev GoStr := List Nat

/-- Convert a Lean string literal to its rune list, for concrete inputs. -/
def strRunes (s : String) : GoStr := s.toList.map Char.toNat

/-- The rune of the dot character. -/
def dotRune : Nat := 46

/-- The rune of the path separator character. -/
def slashRune : Nat := 47

/-- Model of lower-casing one rune (Go `strings.ToLower`, ASCII letters). -/
def runeToLower (r : Nat) : Nat := if 65 ≤ r ∧ r ≤ 90 then r + 32 else r

/-- Model of upper-casing one rune (Go `strings.ToUpper`, ASCII letters). -/
def runeToUpper (r : Nat) : Nat := if 97 ≤ r ∧ r ≤ 122 then r - 32 else r

/-- Model of Go `strings.ToLower`. -/
def goToLower (s : GoStr) : GoStr := s.map runeToLower

/-- Model of Go `strings.TrimPrefix(s, ".")`: drop one leading dot. -/
def goTrimLeadingDot (s : GoStr) : GoStr :=
  match s with
  | r :: rest => if r = dotRune then rest else r :: rest
  | [] => []

/-- Embedding of `normalizeExtension` from `src/helpers.go`:
lowercase, then strip one leading dot. -/
def normalizeExtension (s : GoStr) : GoStr := goTrimLeadingDot (goToLower s)

/-- Scan predicate of Go `path.Ext`: keep scanning backwards while the rune
is neither a dot nor a path separator. -/
def notExtStop (r : Nat) : Bool := !(r == dotRune) && !(r == slashRune)

/-- Embedding of Go `path.Ext`: the suffix starting at the final dot of the
last path element, or the empty string when there is none.  The Go loop
scans the string backwards until it hits a dot (returning the suffix from
there) or a separator (returning the empty string); here the backward scan
is the `takeWhile`/`dropWhile` split of the reversed rune list. -/
def pathExt (s : GoStr) : GoStr :=
  if (s.reverse.dropWhile notExtStop).head? = some dotRune
  then dotRune :: (s.reverse.takeWhile notExtStop).reverse
  else []

/-- Embedding of the `OriginalExtension` field computed by
`NewTaskProcessor` in `src/tasks.go`: `strings.ToLower(path.Ext(filename))`. -/
def originalExtensionOf (filename : GoStr) : GoStr := goToLower (pathExt filename)

/-- Embedding of `trimSuffixCaseInsensitive` from `src/helpers.go`. -/
def trimSuffixCaseInsensitive (s suffix : GoStr) : GoStr :=
  if (goToLower suffix).isSuffixOf (goToLower s) then s.take (s.length - suffix.length)
  else s

/-- Embedding of the `Task` configuration record from `src/config.go`:
a name, a list of extensions and a command template (kept as its text;
the oracle below consumes the rendered command). -/
structure Task where
  name : GoStr
  extensions : List GoStr
  command : GoStr
deriving DecidableEq

/-- The matching test of `TaskProcessor.Process` in `src/tasks.go`:
`slices.Contains(task.Extensions, normalizeExtension(tp.OriginalExtension))`. -/
def taskMatches (t : Task) (originalExtension : GoStr) : Bool :=
  decide (normalizeExtension originalExtension ∈ t.extensions)

/-- Embedding of `shouldProcessExtension` from `src/helpers.go`. -/
def shouldProcessExtension (extension : GoStr) (tasks : List Task) : Bool :=
  tasks.any (fun t => taskMatches t extension)

/-- The processed-file fields set by `TaskProcessor.processResults`. -/
structure ProcessedInfo where
  filename : GoStr
  extension : GoStr
  size : Int
deriving DecidableEq

/-- Oracle for external command execution: for a rendered command run in a
fresh isolated workspace, its exit status (`exitOk`) and the files (name and
size) it leaves in the destination directory (`dstFiles`).  Each pipeline
attempt gets a fresh `src`/`dst` pair (`setupWorkDirectories` in
`src/tasks.go`), so the outcome is a function of the command alone. -/
structure ExecEnv where
  exitOk : GoStr → Bool
  dstFiles : GoStr → List (GoStr × Int)

/-- The ways a single pipeline attempt (`TaskProcessor.run`) fails. -/
inductive RunError where
  | commandFailed (cmd : GoStr)
  | wrongFileCount (n : Nat)
deriving DecidableEq

/-- Embedding of one attempt, `TaskProcessor.run` in `src/tasks.go`:
execute the command (`executeCommand`), then inspect the destination
directory (`processResults`): exactly one file must be present, and the
processed name/extension/size are derived from it. -/
def runModel (env : ExecEnv) (originalFilename originalExtension cmd : GoStr) :
    Except RunError ProcessedInfo :=
  if env.exitOk cmd then
    match env.dstFiles cmd with
    | [f] =>
      .ok { filename := trimSuffixCaseInsensitive originalFilename originalExtension
                          ++ goToLower (pathExt f.1)
            extension := goToLower (pathExt f.1)
            size := f.2 }
    | fs => .error (.wrongFileCount fs.length)
  else .error (.commandFailed cmd)

/-- The loop of `TaskProcessor.Process` in `src/tasks.go`: iterate the
tasks in order, skip non-matching ones, collect each failed attempt's error
and stop at the first success.  Returns (success flag, accumulated
`(taskName, error)` list, processed output). -/
def processLoop (env : ExecEnv) (originalFilename originalExtension : GoStr) :
    List Task → List (GoStr × RunError) →
    Bool × List (GoStr × RunError) × Option ProcessedInfo
  | [], errs => (false, errs, none)
  | t :: rest, errs =>
    if taskMatches t originalExtension then
      match runModel env originalFilename originalExtension t.command with
      | .ok info => (true, errs, some info)
      | .error e => processLoop env originalFilename originalExtension rest (errs ++ [(t.name, e)])
    else processLoop env originalFilename originalExtension rest errs

/-- The error value returned by `TaskProcessor.Process`. -/
inductive ProcessError where
  | noTaskFound (extension : GoStr)
  | taskFailed (name : GoStr) (e : RunError)
  | multipleErrors (es : List (GoStr × RunError))
deriving DecidableEq

/-- Embedding of `TaskProcessor.Process` in `src/tasks.go`.  `err` starts as
"no task found", is set to `nil` when an attempt succeeds, and is then
overwritten by the final block: with more than one collected error the
combined list, with exactly one collected error that error verbatim.
Returns the error (`none` means success) and the processed output fields. -/
def processResult (env : ExecEnv) (originalFilename originalExtension : GoStr)
    (tasks : List Task) : Option ProcessError × Option ProcessedInfo :=
  let r := processLoop env originalFilename originalExtension tasks []
  let err : Option ProcessError :=
    if r.2.1.length > 1 then some (.multipleErrors r.2.1)
    else
      match r.2.1 with
      | [e] => some (.taskFailed e.1 e.2)
      | _ => if r.1 then none else some (.noTaskFound originalExtension)
  (err, r.2.2)

/-- The jpg extension entry, as configured (lowercase, no dot). -/
def extJpg : GoStr := strRunes "jpg"

/-- Fallback scenario, definition A: matches jpg, its command fails. -/
def taskA : Task := { name := strRunes "taskA", extensions := [extJpg], command := strRunes "cmdA" }

/-- Fallback scenario, definition B: matches jpg, its command succeeds. -/
def taskB : Task := { name := strRunes "taskB", extensions := [extJpg], command := strRunes "cmdB" }

/-- Execution oracle for the fallback scenario: `cmdA` exits nonzero,
`cmdB` exits zero and leaves exactly one 100-byte file `out.jxl` in the
destination directory. -/
def envAB : ExecEnv :=
  { exitOk := fun c => c == strRunes "cmdB"
    dstFiles := fun c => if c == strRunes "cmdB" then [(strRunes "out.jxl", 100)] else [] }

/-- C1.  The claim says that when at least one matching task definition's
attempt succeeds, `TaskProcessor.Process` returns success; in particular
with definition A (fails) then B (succeeds) for the same extension the
pipeline reports success with B's output.  The code violates this: after
the loop breaks on B's success with `err = nil`, the trailing
`if len(errors) == 1 { err = errors[0] }` block in `src/tasks.go`
unconditionally overwrites the `nil` with A's error, so `Process` returns
A's failure even though B succeeded and B's output was recorded in the
processed fields.  This theorem evaluates the embedded `Process` at that
failing input: the processed output equals B's output, yet the returned
error is A's failure rather than `none`. -/
theorem process_fallback_success_still_reports_error :
    (processResult envAB (strRunes "photo.jpg") (originalExtensionOf (strRunes "photo.jpg"))
        [taskA, taskB]).2
      = some { filename := strRunes "photo.jxl", extension := strRunes ".jxl", size := 100 }
    ∧ (processResult envAB (strRunes "photo.jpg") (originalExtensionOf (strRunes "photo.jpg"))
        [taskA, taskB]).1
      = some (.taskFailed (strRunes "taskA") (.commandFailed (strRunes "cmdA"))) := by
  constructor
  · decide
  · decide

/-- C2.  The claim (and `TASKS.md`) says a matching task whose command
template is the empty string trivially succeeds with the original file as
output.  The code has no such special case: `TaskProcessor.run` renders the
empty template to the empty command, `sh -c` on the empty command exits
zero and writes nothing, and `processResults` then fails with
"unexpected number of files in temp directory: 0" because the destination
directory is empty.  So for every execution oracle in which the empty
command exits zero and produces no destination files (which is what the
shell does), the attempt fails with a zero-file-count error instead of
trivially succeeding. -/
theorem empty_command_attempt_fails (env : ExecEnv) (originalFilename originalExtension : GoStr)
    (h1 : env.exitOk [] = true) (h2 : env.dstFiles [] = []) :
    runModel env originalFilename originalExtension [] = .error (.wrongFileCount 0) := by
  unfold runModel
  rw [h1, h2]
  simp

/-- Witness for C2: the oracle recording the actual behavior of
`sh -c` on the empty command (exit status zero, no files created). -/
def emptyShellEnv : ExecEnv := { exitOk := fun _ => true, dstFiles := fun _ => [] }

/-- Witness for the C2 theorem at a concrete input. -/
theorem empty_command_attempt_fails_witness :
    runModel emptyShellEnv (strRunes "photo.jpg") (strRunes ".jpg") []
      = .error (.wrongFileCount 0) :=
  empty_command_attempt_fails emptyShellEnv (strRunes "photo.jpg") (strRunes ".jpg") rfl rfl

/-- The replacement decision of the HTTP ingestion path, `newJob` in
`src/jobs.go`: `replace := tp.OriginalSize > tp.ProcessedSize`. -/
def jobsReplace (originalSize processedSize : Int) : Bool :=
  decide (originalSize > processedSize)

/-- The upload decision of the filesystem ingestion path,
`FileWatcher.processFile` in `src/watcher.go`: the processed file is
uploaded (instead of the original) exactly when
`tp.ProcessedFile != nil && tp.ProcessedSize > 0 && tp.OriginalSize > tp.ProcessedSize`. -/
def watcherUploadsProcessed (processedFilePresent : Bool)
    (originalSize processedSize : Int) : Bool :=
  processedFilePresent && decide (processedSize > 0) && decide (originalSize > processedSize)

/-- Counterexample for C3.  The claim says that in both ingestion paths a
strictly smaller processed result always replaces the original.  In the
filesystem path this fails for an empty (zero-byte) processed result: with
original size 5 and processed size 0 the result is strictly smaller, yet
`FileWatcher.processFile` uploads the original because of its additional
`tp.ProcessedSize > 0` condition. -/
theorem watcher_zero_size_not_replaced :
    watcherUploadsProcessed true 5 0 = false ∧ ((0 : Int) < 5) ∧ jobsReplace 5 0 = true := by
  refine ⟨by decide, by decide, by decide⟩

/-- C3 as amended.  In the HTTP path (`newJob`), the processed result
replaces the original exactly when it is strictly smaller.  In the
filesystem path (`FileWatcher.processFile`), the processed result is
uploaded in place of the original exactly when the processed file is
present, its size is strictly positive, and it is strictly smaller than
the original; in particular a zero-size result never replaces even though
it is strictly smaller. -/
theorem replacement_policy_characterization (present : Bool) (originalSize processedSize : Int) :
    (jobsReplace originalSize processedSize = true ↔ processedSize < originalSize)
    ∧ (watcherUploadsProcessed present originalSize processedSize = true
        ↔ (present = true ∧ 0 < processedSize ∧ processedSize < originalSize)) := by
  constructor
  · simp [jobsReplace]
  · simp [watcherUploadsProcessed, and_assoc]

/-- Observable filesystem actions of the watcher's upload helpers. -/
inductive WatchAction where
  | uploadAsset (p : String)
  | removeFile (p : String)
  | copyToUndone (p : String)
deriving DecidableEq

/-- Embedding of `FileWatcher.uploadToImmich` as defined in
`src/watcher.go`: call `immichClient.UploadAsset`; on failure only log and
return; on success remove the local file. -/
def uploadToImmichWatcher (uploadOk : Bool) (p : String) : List WatchAction :=
  WatchAction.uploadAsset p :: (if uploadOk then [WatchAction.removeFile p] else [])

/-- Embedding of `FileWatcher.uploadToImmich` as defined in
`src/watcher_upload.go`: call `immichClient.UploadAsset`; on failure invoke
`handleUploadError`, which logs and copies the file to the undone
(quarantine) directory, leaving the original in place; on success do
nothing further (in particular the local file is not deleted). -/
def uploadToImmichWatcherUpload (uploadOk : Bool) (p : String) : List WatchAction :=
  WatchAction.uploadAsset p :: (if uploadOk then [] else [WatchAction.copyToUndone p])

/-- Counterexample for C4.  The claim says the filesystem upload routine
deletes the local file on success and quarantines it on failure.  The
sources contain two conflicting versions of `FileWatcher.uploadToImmich`,
and each violates one half at the concrete path below: the
`src/watcher_upload.go` version performs no deletion on success, and the
`src/watcher.go` version performs no quarantine copy on failure. -/
theorem upload_effects_claim_false :
    WatchAction.removeFile "/watch/a.jpg" ∉ uploadToImmichWatcherUpload true "/watch/a.jpg"
    ∧ WatchAction.copyToUndone "/watch/a.jpg" ∉ uploadToImmichWatcher false "/watch/a.jpg" := by
  constructor
  · decide
  · decide

/-- C4 as amended.  The repository carries two variants of the filesystem
upload routine: in the `src/watcher.go` variant a successful upload deletes
the local file and a failed upload only logs (no quarantine copy); in the
`src/watcher_upload.go` variant a failed upload leaves the local file in
place and copies it to the undone (quarantine) directory, and a successful
upload leaves the file in place (no deletion).  No variant both deletes on
success and quarantines on failure. -/
theorem upload_effects_characterization (p : String) :
    uploadToImmichWatcher true p = [WatchAction.uploadAsset p, WatchAction.removeFile p]
    ∧ uploadToImmichWatcher false p = [WatchAction.uploadAsset p]
    ∧ uploadToImmichWatcherUpload true p = [WatchAction.uploadAsset p]
    ∧ uploadToImmichWatcherUpload false p
        = [WatchAction.uploadAsset p, WatchAction.copyToUndone p] := by
  exact ⟨rfl, rfl, rfl, rfl⟩

/-- The producer-side delivery timeout of the `newJob` goroutine in
`src/jobs.go` (`time.After(10 * time.Second)`), in seconds. -/
def deliveryTimeoutSeconds : Nat := 10

/-- The wait endpoint's browser-safety timeout in `continueJob`
(`safeClientTimeout`), in seconds. -/
def safeClientTimeoutSeconds : Nat := 55

/-- Events of a job's retirement, `src/jobs.go`.  `cleanup1` closes and
deletes both registry channels; `cleanup2` additionally cleans the task
processor; `cleanup3` additionally closes the upstream response body. -/
inductive JobEvent where
  | sendResponse
  | receiveAck
  | ackTimeout
  | deliveryTimeout
  | closeResponseBody
  | cleanProcessor
  | closeResultChan
  | deleteResultChan
  | closeAckChan
  | deleteAckChan
deriving DecidableEq

/-- Embedding of `cleanup1` in `newJob`: close and remove the job's result
channel, then close and remove its acknowledgment channel. -/
def cleanup1Events : List JobEvent :=
  [JobEvent.closeResultChan, JobEvent.deleteResultChan,
   JobEvent.closeAckChan, JobEvent.deleteAckChan]

/-- Embedding of `cleanup2` in `newJob`: clean the task processor, then
run `cleanup1`. -/
def cleanup2Events : List JobEvent := JobEvent.cleanProcessor :: cleanup1Events

/-- Embedding of `cleanup3` in `newJob`: close the upstream response body,
then run `cleanup2`. -/
def cleanup3Events : List JobEvent := JobEvent.closeResponseBody :: cleanup2Events

/-- The three ways the delivery goroutine of `newJob` can exit its nested
`select` statements. -/
inductive DeliveryPath where
  | deliveredAcked
  | deliveredAckTimeout
  | deliveryTimedOut
deriving DecidableEq

/-- Embedding of the delivery goroutine spawned at the end of `newJob` in
`src/jobs.go`: it either hands the response to a waiting consumer and then
waits (bounded) for the acknowledgment, or times out with no consumer; in
every case the single deferred `cleanup3()` then runs. -/
def deliveryGoroutineEvents : DeliveryPath → List JobEvent
  | .deliveredAcked => [JobEvent.sendResponse, JobEvent.receiveAck] ++ cleanup3Events
  | .deliveredAckTimeout => [JobEvent.sendResponse, JobEvent.ackTimeout] ++ cleanup3Events
  | .deliveryTimedOut => [JobEvent.deliveryTimeout] ++ cleanup3Events

/-- C5.  Whichever of the three exit paths the delivery goroutine takes
(successful delivery with acknowledgment, consumer-side acknowledgment
timeout, or producer-side delivery timeout, the latter two bounded by the
10-second timer), the job's registry entry is retired exactly once: each of
the two channels is closed exactly once and removed from the registry
exactly once, and every path ends in that retirement (none leaves the job
registered). -/
theorem job_retired_exactly_once (p : DeliveryPath) :
    (deliveryGoroutineEvents p).count JobEvent.closeResultChan = 1
    ∧ (deliveryGoroutineEvents p).count JobEvent.deleteResultChan = 1
    ∧ (deliveryGoroutineEvents p).count JobEvent.closeAckChan = 1
    ∧ (deliveryGoroutineEvents p).count JobEvent.deleteAckChan = 1
    ∧ deliveryTimeoutSeconds = 10 := by
  cases p <;> exact ⟨rfl, rfl, rfl, rfl, rfl⟩

/-- Observable steps of one wait-endpoint invocation (`continueJob`). -/
inductive WaitStep where
  | respondError (code : Nat)
  | writeStatus (status : Nat)
  | streamBody
  | signalAck
  | redirectTo (url : String)
deriving DecidableEq

/-- What the timed receive inside `continueJob` can observe: a response
arriving on the job channel, the channel being closed, or the safety
timeout firing first. -/
inductive WaitOutcome where
  | resultReceived (status : Nat)
  | channelClosed
  | safetyTimeout
deriving DecidableEq

/-- Embedding of `continueJob` in `src/jobs.go`.  The registry is the set
of job identifiers currently present in `jobChannels`.  An empty or
unregistered identifier yields a 400 client error.  Otherwise the handler
races the job channel against the 55-second safety timeout: a received
response is streamed (status, then body) and acknowledged; a closed channel
yields a 500; a timeout yields a temporary redirect to the request's own
URL.  `continueJob` never mutates the registry, which is returned
unchanged. -/
def continueJobSteps (registry : List String) (jobID : String) (url : String)
    (o : WaitOutcome) : List WaitStep × List String :=
  if jobID = "" ∨ ¬ jobID ∈ registry then ([WaitStep.respondError 400], registry)
  else
    match o with
    | .resultReceived s => ([WaitStep.writeStatus s, WaitStep.streamBody, WaitStep.signalAck], registry)
    | .channelClosed => ([WaitStep.respondError 500], registry)
    | .safetyTimeout => ([WaitStep.redirectTo url], registry)

/-- C6.  The wait-endpoint contract: an empty or unknown job identifier is
answered with a 400 client error; for a registered job, a result arriving
before the 55-second safety timeout is streamed to the client (upstream
status, then body) followed by the acknowledgment signal; if the safety
timeout elapses first the endpoint responds with a temporary redirect to
the same wait URL, the registry is left unchanged, and a later poll of the
same identifier against that unchanged registry can still succeed. -/
theorem wait_endpoint_contract (registry : List String) (jobID : String) (url : String)
    (o : WaitOutcome) (s : Nat) :
    ((jobID = "" ∨ ¬ jobID ∈ registry) → (continueJobSteps registry jobID url o).1
        = [WaitStep.respondError 400])
    ∧ (jobID ≠ "" → jobID ∈ registry →
        (continueJobSteps registry jobID url (WaitOutcome.resultReceived s)).1
          = [WaitStep.writeStatus s, WaitStep.streamBody, WaitStep.signalAck])
    ∧ (jobID ≠ "" → jobID ∈ registry →
        (continueJobSteps registry jobID url WaitOutcome.safetyTimeout).1
            = [WaitStep.redirectTo url]
        ∧ (continueJobSteps registry jobID url WaitOutcome.safetyTimeout).2 = registry
        ∧ safeClientTimeoutSeconds = 55) := by
  refine ⟨fun h => ?_, fun h1 h2 => ?_, fun h1 h2 => ?_⟩
  · unfold continueJobSteps
    rw [if_pos h]
  · have hcond : ¬ (jobID = "" ∨ ¬ jobID ∈ registry) := by
      push_neg
      exact ⟨h1, h2⟩
    unfold continueJobSteps
    rw [if_neg hcond]
  · have hcond : ¬ (jobID = "" ∨ ¬ jobID ∈ registry) := by
      push_neg
      exact ⟨h1, h2⟩
    unfold continueJobSteps
    rw [if_neg hcond]
    exact ⟨rfl, rfl, rfl⟩

/-- Witness for the C6 theorem at a concrete registry, identifier and
outcome. -/
theorem wait_endpoint_contract_witness :
    ((continueJobSteps ["job-1"] "nope" "/w" WaitOutcome.safetyTimeout).1
        = [WaitStep.respondError 400])
    ∧ ((continueJobSteps ["job-1"] "job-1" "/w" (WaitOutcome.resultReceived 200)).1
        = [WaitStep.writeStatus 200, WaitStep.streamBody, WaitStep.signalAck])
    ∧ ((continueJobSteps ["job-1"] "job-1" "/w" WaitOutcome.safetyTimeout).1
        = [WaitStep.redirectTo "/w"]) :=
  ⟨(wait_endpoint_contract ["job-1"] "nope" "/w" WaitOutcome.safetyTimeout 200).1
      (Or.inr (by decide)),
   (wait_endpoint_contract ["job-1"] "job-1" "/w" WaitOutcome.safetyTimeout 200).2.1
      (by decide) (by decide),
   ((wait_endpoint_contract ["job-1"] "job-1" "/w" WaitOutcome.safetyTimeout 200).2.2
      (by decide) (by decide)).1⟩

/-- A Go `http.Header`: a finite map from canonical header names to lists
of values, modelled as an association list (Go maps have unique keys; the
list order stands in for an arbitrary iteration order). -/
abbrev Header := List (String × List String)

/-- Lookup of a header's values (`http.Header.Values`): the value list of
the first entry with the given key, or empty. -/
def headerValues (h : Header) (k : String) : List String :=
  match h with
  | [] => []
  | p :: t => if p.1 = k then p.2 else headerValues t k

/-- Model of Go `http.Header.Add`: append the value to the existing entry
for the key, or create a new entry for it. -/
def headerAdd (h : Header) (k v : String) : Header :=
  match h with
  | [] => [(k, [v])]
  | p :: t => if p.1 = k then (p.1, p.2 ++ [v]) :: t else p :: headerAdd t k v

/-- Model of Go `http.Header.Set`: replace every entry for the key by a
single entry holding exactly the given value. -/
def headerSet (h : Header) (k v : String) : Header :=
  (h.filter (fun p => !(p.1 == k))) ++ [(k, [v])]

/-- Add every value of a key, in order (the inner loop of the header-copy
in `newJob`). -/
def headerAddAll (h : Header) (k : String) (vs : List String) : Header :=
  vs.foldl (fun acc v => headerAdd acc k v) h

/-- Concatenation of all values stored for a key across all entries (for a
well-formed Go map, keys are unique and this coincides with
`headerValues`). -/
def headerAllValues : Header → String → List String
  | [], _ => []
  | p :: t, k => (if p.1 = k then p.2 else []) ++ headerAllValues t k

/-- Embedding of the upstream header construction in `newJob`
(`src/jobs.go`): starting from the fresh request's empty header map, first
`req.Header.Set("Content-Type", writer.FormDataContentType())` with the
regenerated multipart content type, then for every key of the original
request's header map, `req.Header.Add(key, value)` for each of its values
in order. -/
def newJobUpstreamHeader (orig : Header) (newContentType : String) : Header :=
  orig.foldl (fun acc p => headerAddAll acc p.1 p.2)
    (headerSet [] "Content-Type" newContentType)

theorem headerValues_headerAdd (h : Header) (k v k2 : String) :
    headerValues (headerAdd h k v) k2
      = if k2 = k then headerValues h k ++ [v] else headerValues h k2 := by
  induction h with
  | nil =>
    by_cases hk : k2 = k
    · subst hk
      simp [headerAdd, headerValues]
    · simp [headerAdd, headerValues, hk, Ne.symm hk]
  | cons p t ih =>
    by_cases hp : p.1 = k
    · subst hp
      by_cases hk : k2 = p.1
      · subst hk
        simp [headerAdd, headerValues]
      · simp [headerAdd, headerValues, hk, Ne.symm hk]
    · by_cases hp2 : p.1 = k2
      · subst hp2
        simp [headerAdd, headerValues, hp, Ne.symm hp]
      · simp [headerAdd, headerValues, hp, hp2, ih]

theorem headerValues_headerAddAll (vs : List String) (h : Header) (k k2 : String) :
    headerValues (headerAddAll h k vs) k2
      = if k2 = k then headerValues h k ++ vs else headerValues h k2 := by
  induction vs generalizing h with
  | nil =>
    by_cases hk : k2 = k
    · subst hk
      simp [headerAddAll]
    · simp [headerAddAll, hk]
  | cons v vs ih =>
    have hfold : headerAddAll h k (v :: vs) = headerAddAll (headerAdd h k v) k vs := by
      simp [headerAddAll]
    rw [hfold, ih]
    by_cases hk : k2 = k
    · subst hk
      simp [headerValues_headerAdd]
    · simp [hk, headerValues_headerAdd]

theorem headerValues_foldAddAll (orig : Header) (init : Header) (k : String) :
    headerValues (orig.foldl (fun acc p => headerAddAll acc p.1 p.2) init) k
      = headerValues init k ++ headerAllValues orig k := by
  induction orig generalizing init with
  | nil => simp [headerAllValues]
  | cons p t ih =>
    rw [List.foldl_cons, ih, headerValues_headerAddAll, headerAllValues]
    by_cases hk : k = p.1
    · subst hk
      rw [if_pos rfl, if_pos rfl, List.append_assoc]
    · rw [if_neg hk, if_neg (Ne.symm hk), List.nil_append]

/-- Counterexample for C7.  The claim says the original request's
Content-Type value does not appear on the upstream request.  But `newJob`
first Sets the regenerated multipart content type and then Adds every
original header including Content-Type, so the upstream request's
Content-Type field holds the regenerated value followed by the original
value — the original value does appear. -/
theorem upstream_original_content_type_forwarded :
    headerValues
        (newJobUpstreamHeader
          [("Content-Type", ["multipart/form-data; boundary=orig"]),
           ("X-Api-Key", ["secret"])]
          "multipart/form-data; boundary=new")
        "Content-Type"
      = ["multipart/form-data; boundary=new", "multipart/form-data; boundary=orig"]
    ∧ "multipart/form-data; boundary=orig"
        ∈ headerValues
            (newJobUpstreamHeader
              [("Content-Type", ["multipart/form-data; boundary=orig"]),
               ("X-Api-Key", ["secret"])]
              "multipart/form-data; boundary=new")
            "Content-Type" := by
  constructor
  · rfl
  · rw [show headerValues
        (newJobUpstreamHeader
          [("Content-Type", ["multipart/form-data; boundary=orig"]),
           ("X-Api-Key", ["secret"])]
          "multipart/form-data; boundary=new")
        "Content-Type"
      = ["multipart/form-data; boundary=new", "multipart/form-data; boundary=orig"] from rfl]
    exact List.mem_cons_of_mem _ (List.mem_singleton.mpr rfl)

/-- C7 as amended.  `newJob` forwards every original header by appending
its values after setting Content-Type to the regenerated multipart value:
for any key other than Content-Type (Content-Length included) the upstream
request's values are exactly the original values, while the upstream
Content-Type field holds the regenerated value followed by the original
Content-Type values.  (Go's HTTP client later regenerates the
Content-Length on the wire from the new body, but the header map built by
`newJob` itself carries the original Content-Length value forward.) -/
theorem upstream_header_characterization (orig : Header) (newContentType : String)
    (k : String) :
    headerValues (newJobUpstreamHeader orig newContentType) k
      = (if k = "Content-Type" then [newContentType] else []) ++ headerAllValues orig k := by
  unfold newJobUpstreamHeader
  rw [headerValues_foldAddAll]
  by_cases hk : k = "Content-Type"
  · rw [if_pos hk, hk]
    rfl
  · rw [if_neg hk, List.nil_append]
    have hbase : headerValues (headerSet [] "Content-Type" newContentType) k = [] := by
      simp [headerSet, headerValues, Ne.symm hk]
    rw [hbase, List.nil_append]

/-- Embedding of the redirect-capability test in `newJob` (`src/jobs.go`):
`clientFollowsRedirects := !strings.HasPrefix(r.UserAgent(), "Dart/")` —
the conservative deny-list for the one client known to mishandle
redirects. -/
def clientFollowsRedirects (userAgent : List Char) : Bool :=
  !("Dart/".toList.isPrefixOf userAgent)

/-- The points at which `newJob` terminates, abstracting the collaborators
it calls on the way. -/
inductive UploadOutcome where
  | formFileError
  | createProcessorError
  | pipelineError
  | upstreamPostError
  | upstreamResponse (status : Nat)
deriving DecidableEq

/-- What `newJob` writes to the client connection. -/
inductive HttpWrite where
  | redirectWait (jobID : String)
  | errorStatus (code : Nat)
  | upstreamStatus (status : Nat)
  | upstreamBody
deriving DecidableEq

/-- Embedding of the responses `newJob` (`src/jobs.go`) writes directly on
the initiating connection.  A multipart-parse failure returns before
anything is written.  A redirect-capable client is immediately redirected
to the wait page and receives nothing further on this connection (the
upstream response travels through the job registry instead).  A client
with broken redirects receives no redirect: a processor-creation or
pipeline failure is answered with a direct 500, and an upstream response
is streamed back directly (status, then body); a failure of the upstream
POST itself returns without writing. -/
def newJobClientWrites (userAgent : List Char) (jobID : String)
    (o : UploadOutcome) : List HttpWrite :=
  match o with
  | .formFileError => []
  | .createProcessorError =>
    if clientFollowsRedirects userAgent then [HttpWrite.redirectWait jobID]
    else [HttpWrite.errorStatus 500]
  | .pipelineError =>
    if clientFollowsRedirects userAgent then [HttpWrite.redirectWait jobID]
    else [HttpWrite.errorStatus 500]
  | .upstreamPostError =>
    if clientFollowsRedirects userAgent then [HttpWrite.redirectWait jobID]
    else []
  | .upstreamResponse s =>
    if clientFollowsRedirects userAgent then [HttpWrite.redirectWait jobID]
    else [HttpWrite.upstreamStatus s, HttpWrite.upstreamBody]

/-- C8.  A client is classified as unable to follow redirects exactly when
its User-Agent starts with the Dart marker; such a client never receives
the wait-page redirect on any outcome, is answered with a direct 500 when
the pipeline fails unrecoverably, and on success receives the upstream
status and body directly on the blocked connection. -/
theorem non_redirect_client_contract (userAgent : List Char) (jobID : String)
    (o : UploadOutcome) (s : Nat) :
    (clientFollowsRedirects userAgent = false
      ↔ "Dart/".toList.isPrefixOf userAgent = true)
    ∧ ("Dart/".toList.isPrefixOf userAgent = true →
        (∀ j, HttpWrite.redirectWait j ∉ newJobClientWrites userAgent jobID o)
        ∧ (o = UploadOutcome.pipelineError →
            newJobClientWrites userAgent jobID o = [HttpWrite.errorStatus 500])
        ∧ (o = UploadOutcome.upstreamResponse s →
            newJobClientWrites userAgent jobID o
              = [HttpWrite.upstreamStatus s, HttpWrite.upstreamBody])) := by
  constructor
  · simp [clientFollowsRedirects]
  · intro hua
    have hfalse : clientFollowsRedirects userAgent = false := by
      unfold clientFollowsRedirects
      rw [hua]
      rfl
    refine ⟨fun j => ?_, fun ho => ?_, fun ho => ?_⟩
    · cases o <;> simp [newJobClientWrites, hfalse]
    · subst ho
      simp [newJobClientWrites, hfalse]
    · subst ho
      simp [newJobClientWrites, hfalse]

/-- Witness for the C8 theorem: the Android app's Dart User-Agent at the
pipeline-failure and success outcomes. -/
theorem non_redirect_client_contract_witness :
    newJobClientWrites "Dart/3.0 (dart:io)".toList "job-1" UploadOutcome.pipelineError
        = [HttpWrite.errorStatus 500]
    ∧ newJobClientWrites "Dart/3.0 (dart:io)".toList "job-1" (UploadOutcome.upstreamResponse 201)
        = [HttpWrite.upstreamStatus 201, HttpWrite.upstreamBody] :=
  ⟨((non_redirect_client_contract "Dart/3.0 (dart:io)".toList "job-1"
        UploadOutcome.pipelineError 201).2 (by decide)).2.1 rfl,
   ((non_redirect_client_contract "Dart/3.0 (dart:io)".toList "job-1"
        (UploadOutcome.upstreamResponse 201) 201).2 (by decide)).2.2 rfl⟩

/-- Events of one `TaskProcessor.executeCommand` call (`src/tasks.go`). -/
inductive GateEvent where
  | acquire
  | runCommand
  | release
deriving DecidableEq

/-- Embedding of `TaskProcessor.executeCommand` in `src/tasks.go`: when a
semaphore is configured, a permit is acquired before the command starts and
its release is deferred, so it runs after the body on every return path;
the command's nonzero exit status makes the call return an error but does
not skip the deferred release.  Returns the event trace and whether the
call returned an error. -/
def executeCommandTrace (hasSemaphore exitOk : Bool) : List GateEvent × Bool :=
  let pre := if hasSemaphore then [GateEvent.acquire] else []
  let deferred := if hasSemaphore then [GateEvent.release] else []
  (pre ++ [GateEvent.runCommand] ++ deferred, !exitOk)

/-- C9.  Acquisitions and releases of the Concurrency Gate are balanced on
every exit path of `executeCommand`: whenever the gate is configured, the
trace is exactly one acquire, then the command, then one release — also
when the command exits nonzero (in which case the call reports the error) —
so no attempt returns while still holding a permit. -/
theorem gate_acquire_release_balanced (hasSemaphore exitOk : Bool) :
    ((executeCommandTrace hasSemaphore exitOk).1.count GateEvent.acquire
      = (executeCommandTrace hasSemaphore exitOk).1.count GateEvent.release)
    ∧ (hasSemaphore = true →
        (executeCommandTrace hasSemaphore exitOk).1
          = [GateEvent.acquire, GateEvent.runCommand, GateEvent.release])
    ∧ ((executeCommandTrace hasSemaphore exitOk).2 = true ↔ exitOk = false) := by
  cases hasSemaphore <;> cases exitOk <;> exact ⟨by decide, by decide, by decide⟩

/-- Witness for the C9 theorem: gate configured, command exiting nonzero. -/
theorem gate_acquire_release_balanced_witness :
    (executeCommandTrace true false).1
      = [GateEvent.acquire, GateEvent.runCommand, GateEvent.release] :=
  (gate_acquire_release_balanced true false).2.1 rfl

/-- An ASCII uppercase letter (the range Go `strings.ToLower` maps). -/
def isUpperRune (r : Nat) : Prop := 65 ≤ r ∧ r ≤ 90

instance (r : Nat) : Decidable (isUpperRune r) := by
  unfold isUpperRune
  infer_instance

theorem runeToLower_not_upper (r : Nat) : ¬ isUpperRune (runeToLower r) := by
  unfold isUpperRune runeToLower
  by_cases h : 65 ≤ r ∧ r ≤ 90
  · rw [if_pos h]
    omega
  · rw [if_neg h]
    exact h

theorem runeToLower_eq_dot (r : Nat) (h : runeToLower r = dotRune) : r = dotRune := by
  unfold runeToLower dotRune at h
  unfold dotRune
  by_cases hc : 65 ≤ r ∧ r ≤ 90
  · rw [if_pos hc] at h
    omega
  · rw [if_neg hc] at h
    exact h

theorem mem_goTrimLeadingDot (c : Nat) (s : GoStr) (h : c ∈ goTrimLeadingDot s) : c ∈ s := by
  cases s with
  | nil => simp [goTrimLeadingDot] at h
  | cons r rest =>
    simp only [goTrimLeadingDot] at h
    split at h
    · exact List.mem_cons_of_mem r h
    · exact h

theorem mem_goToLower (c : Nat) (s : GoStr) (h : c ∈ goToLower s) :
    ∃ r ∈ s, c = runeToLower r := by
  unfold goToLower at h
  obtain ⟨r, hr, hc⟩ := List.mem_map.mp h
  exact ⟨r, hr, hc.symm⟩

theorem pathExt_shape (s : GoStr) :
    pathExt s = [] ∨ ∃ r, pathExt s = dotRune :: r ∧ dotRune ∉ r := by
  unfold pathExt
  by_cases h : (s.reverse.dropWhile notExtStop).head? = some dotRune
  · rw [if_pos h]
    refine Or.inr ⟨(s.reverse.takeWhile notExtStop).reverse, rfl, ?_⟩
    intro hmem
    have hmem2 : dotRune ∈ s.reverse.takeWhile notExtStop := List.mem_reverse.mp hmem
    have hstop : notExtStop dotRune = true := List.mem_takeWhile_imp hmem2
    simp [notExtStop] at hstop
  · rw [if_neg h]
    exact Or.inl rfl

theorem normalized_not_upper (c : Nat) (f : GoStr)
    (h : c ∈ normalizeExtension (originalExtensionOf f)) : ¬ isUpperRune c := by
  have h2 : c ∈ goToLower (originalExtensionOf f) :=
    mem_goTrimLeadingDot c (goToLower (originalExtensionOf f)) h
  obtain ⟨r, _, hc⟩ := mem_goToLower c (originalExtensionOf f) h2
  rw [hc]
  exact runeToLower_not_upper r

theorem normalized_no_dot (f : GoStr) :
    dotRune ∉ normalizeExtension (originalExtensionOf f) := by
  unfold originalExtensionOf normalizeExtension
  rcases pathExt_shape f with h | ⟨r, h, hnd⟩
  · rw [h]
    intro hc
    simp [goToLower, goTrimLeadingDot] at hc
  · rw [h]
    have hdot : runeToLower dotRune = dotRune := by decide
    intro hc
    have hgo : goToLower (goToLower (dotRune :: r))
        = dotRune :: goToLower (goToLower r) := by
      simp [goToLower, hdot]
    rw [hgo] at hc
    have hrest : dotRune ∈ goToLower (goToLower r) := by
      have htrim : goTrimLeadingDot (dotRune :: goToLower (goToLower r))
          = goToLower (goToLower r) := by
        simp [goTrimLeadingDot]
      rw [htrim] at hc
      exact hc
    obtain ⟨c1, hc1, he1⟩ := mem_goToLower dotRune (goToLower r) hrest
    obtain ⟨c2, hc2, he2⟩ := mem_goToLower c1 r hc1
    have hc1d : c1 = dotRune := runeToLower_eq_dot c1 he1.symm
    have hc2d : c2 = dotRune := runeToLower_eq_dot c2 (by rw [← he2]; exact hc1d)
    exact hnd (hc2d ▸ hc2)

theorem runeToLower_runeToUpper (r : Nat) : runeToLower (runeToUpper r) = runeToLower r := by
  unfold runeToUpper
  by_cases h1 : 97 ≤ r ∧ r ≤ 122
  · rw [if_pos h1]
    unfold runeToLower
    rw [if_pos (show 65 ≤ r - 32 ∧ r - 32 ≤ 90 by omega),
      if_neg (show ¬ (65 ≤ r ∧ r ≤ 90) by omega)]
    omega
  · rw [if_neg h1]

/-- C10.  The matching rule of the pipeline: a task definition matches a
file exactly when its configured extension list contains, verbatim, the
file's extension after lowercasing and stripping the leading dot (and
`shouldProcessExtension` is the disjunction of that test over the task
list).  Consequently the file side is insensitive to letter case and to a
leading dot, while a configured entry containing an ASCII uppercase letter,
or carrying a leading dot, is never the entry that equals a file's
normalized extension — it never matches any file. -/
theorem extension_matching_contract (t : Task) (tasks : List Task)
    (ext filename entry : GoStr) :
    (taskMatches t ext = true ↔ normalizeExtension ext ∈ t.extensions)
    ∧ (shouldProcessExtension ext tasks = true
        ↔ ∃ u ∈ tasks, normalizeExtension ext ∈ u.extensions)
    ∧ ((∃ r ∈ entry, isUpperRune r) →
        entry ≠ normalizeExtension (originalExtensionOf filename))
    ∧ (∀ rest, entry = dotRune :: rest →
        entry ≠ normalizeExtension (originalExtensionOf filename))
    ∧ (ext.head? ≠ some dotRune →
        normalizeExtension (dotRune :: ext) = normalizeExtension ext)
    ∧ normalizeExtension (ext.map runeToUpper) = normalizeExtension ext := by
  refine ⟨?_, ?_, ?_, ?_, ?_, ?_⟩
  · simp [taskMatches]
  · simp [shouldProcessExtension, taskMatches, List.any_eq_true]
  · rintro ⟨r, hr, hup⟩ heq
    exact normalized_not_upper r filename (heq ▸ hr) hup
  · rintro rest hentry heq
    have hd : dotRune ∈ entry := by
      rw [hentry]
      exact List.mem_cons_self dotRune rest
    exact normalized_no_dot filename (heq ▸ hd)
  · intro hhead
    have hlow : goToLower (dotRune :: ext) = dotRune :: goToLower ext := by
      have : runeToLower dotRune = dotRune := by decide
      simp [goToLower, this]
    unfold normalizeExtension
    rw [hlow]
    have htrim : goTrimLeadingDot (dotRune :: goToLower ext) = goToLower ext := by
      simp [goTrimLeadingDot]
    rw [htrim]
    cases hext : ext with
    | nil => simp [goToLower, goTrimLeadingDot]
    | cons c rest =>
      have hc : c ≠ dotRune := by
        intro hcd
        apply hhead
        rw [hext, hcd]
        rfl
      have hlowc : runeToLower c ≠ dotRune := fun hh => hc (runeToLower_eq_dot c hh)
      simp [goToLower, goTrimLeadingDot, hlowc]
  · have hmap : goToLower (ext.map runeToUpper) = goToLower ext := by
      simp only [goToLower, List.map_map]
      exact List.map_congr_left (fun r _ => runeToLower_runeToUpper r)
    unfold normalizeExtension
    rw [hmap]

/-- Witness for the C10 theorem: an uppercase configured entry and a
dot-carrying configured entry never match the corresponding files, and the
file-side dot is immaterial, at concrete inputs. -/
theorem extension_matching_contract_witness :
    strRunes "JPG" ≠ normalizeExtension (originalExtensionOf (strRunes "photo.JPG"))
    ∧ strRunes ".jpg" ≠ normalizeExtension (originalExtensionOf (strRunes "photo.jpg"))
    ∧ normalizeExtension (dotRune :: strRunes "jpg") = normalizeExtension (strRunes "jpg") :=
  ⟨(extension_matching_contract (Task.mk [] [] []) [] (strRunes "jpg")
        (strRunes "photo.JPG") (strRunes "JPG")).2.2.1 ⟨74, by decide, by decide⟩,
   (extension_matching_contract (Task.mk [] [] []) [] (strRunes "jpg")
        (strRunes "photo.jpg") (strRunes ".jpg")).2.2.2.1 (strRunes "jpg") (by decide),
   (extension_matching_contract (Task.mk [] [] []) [] (strRunes "jpg")
        (strRunes "photo.jpg") (strRunes ".jpg")).2.2.2.2.1 (by decide)⟩

end ImmichOptimizer
